import Mathlib

/-!
Shallow embedding of the `sasc` asynchronous-combinator core:
the `lifetime-guard` guard pair, the `futures-util` wake store and
`MaybeDone` completion wrapper, and the `futures-combinators` Join and
Race combinators, together with theorems settling the specification
claims about them.

Sources embedded (file paths refer to the Rust repository):
* `lifetime-guard/src/guard.rs` — `ValueGuard` / `RefGuard`
* `futures-util/src/maybe_done.rs` — `MaybeDone`
* `futures-util/src/wakers.rs` — `WakeStore`
* `futures-combinators/src/join.rs` — N-ary `Join`
* `futures-combinators/src/race.rs` — N-ary `Race`

Machine state held in Rust `Cell`s is modelled by explicit state
passing; raw pointers between guards are modelled by indices into a
world of allocated objects; `panic!` / `debug_assert!` failures are
modelled by `Option` results (`none` = the program halts).
-/

namespace Sasc

/-- `core::task::Poll`. -/
inductive Poll (α : Type) where
  | ready (v : α)
  | pending
deriving Repr, DecidableEq

def Poll.isReady : Poll α → Bool
  | .ready _ => true
  | .pending => false

/-!
## Child pollable operations

A deterministic model of a child future, rich enough for every claim:
`k` counts how many times the operation has been polled so far,
`res k` says whether the `k`-th poll returns `Ready` (with which value)
or `Pending`, and `selfWake k` says whether the operation invokes
`wake()` on the handle it was given during its `k`-th poll.
Polling advances `k` by exactly one — so `k` doubles as an
observer for "this operation was polled n times".
-/
structure SimFut (α : Type) where
  k : Nat
  res : Nat → Option α
  selfWake : Nat → Bool

/-- One poll of a child operation: the advanced machine, the poll
result (`some v` = `Ready(v)`), and whether the child called `wake()`
on its handle during the poll. -/
def SimFut.poll (f : SimFut α) : SimFut α × Option α × Bool :=
  (⟨f.k + 1, f.res, f.selfWake⟩, f.res f.k, f.selfWake f.k)

/-!
## `WakeStore` (`futures-util/src/wakers.rs`)

```rust
pub struct WakeStore<'scope> {
    parent: Cell<Option<&'scope dyn Wake<'scope>>>,
    ready: Cell<bool>,
}
```
The parent handle is abstracted to a type parameter `P`.
-/
structure WakeStore (P : Type) where
  parent : Option P
  ready : Bool
deriving Repr, DecidableEq

/-- `WakeStore::new()`: ready flag starts `true`, no parent. -/
def WakeStore.new : WakeStore P := ⟨none, true⟩

/-- `WakeStore::set_parent`. -/
def WakeStore.set_parent (w : WakeStore P) (p : P) : WakeStore P :=
  { w with parent := some p }

/-- `WakeStore::take_ready`: `self.ready.replace(false)`. -/
def WakeStore.take_ready (w : WakeStore P) : Bool × WakeStore P :=
  (w.ready, { w with ready := false })

/-- The state effect of `Wake::wake for WakeStore` on the store itself
(`self.ready.replace(true)`), together with whether the wake was
forwarded to a registered parent (`if let Some(parent) = parent.get()
{ parent.wake() }`). -/
def WakeStore.wakeSelf (w : WakeStore P) : WakeStore P × Bool :=
  ({ w with ready := true }, w.parent.isSome)

/-!
## Wake cells with wake-cell parents

To state wake *forwarding* (a `WakeStore` whose registered parent is
itself a `WakeStore`) the parent chain is made explicit: a `WakeCell`
is a ready flag plus an optionally registered parent cell.  This is
`WakeStore` instantiated with `P` = wake cell; chains are finite
because Rust's registration order builds them bottom-up.
-/
inductive WakeCell where
  | mk (ready : Bool) (parent : Option WakeCell)

def WakeCell.readyFlag : WakeCell → Bool
  | .mk r _ => r

def WakeCell.parentCell : WakeCell → Option WakeCell
  | .mk _ p => p

/-- `Wake::wake for WakeStore`:
`self.ready.replace(true); if let Some(parent) = self.parent.get()
{ parent.wake(); }` — the forward is unconditional, it does not look
at the previous value of the flag. -/
def WakeCell.wake : WakeCell → WakeCell
  | .mk _ none => .mk true none
  | .mk _ (some p) => .mk true (some p.wake)

/-!
## `MaybeDone` (`futures-util/src/maybe_done.rs`)

States `Future(f) | Done(v) | Gone`; the inner future is a `SimFut`.
-/
inductive MaybeDoneState (α : Type) where
  | future (f : SimFut α)
  | done (v : α)
  | gone

def MaybeDoneState.isGone : MaybeDoneState α → Bool
  | .gone => true
  | _ => false

/-- `MaybeDone::is_done` (also `FusedFuture::is_terminated`):
true in `Done` and `Gone`, false in `Future`. -/
def MaybeDoneState.is_done : MaybeDoneState α → Bool
  | .future _ => false
  | .done _ => true
  | .gone => true

/-- `MaybeDone::poll`: in `Future`, poll the inner operation and on
`Ready(res)` replace the state with `Done(res)`, returning
`Ready(())`; in `Done`, return `Ready(())` without touching the
inner operation; in `Gone`, `panic!("MaybeDone polled after value
taken")` — modelled as `none`.  The `Bool` records whether the inner
operation invoked `wake()` on its handle during the call. -/
def MaybeDoneState.poll :
    MaybeDoneState α → Option (MaybeDoneState α × Poll Unit × Bool)
  | .future f =>
      let (f', out, w) := f.poll
      match out with
      | some v => some (.done v, .ready (), w)
      | none => some (.future f', .pending, w)
  | .done v => some (.done v, .ready (), false)
  | .gone => none

/-- `MaybeDone::take_output`: `Done(v)` becomes `Gone` returning
`Some(v)`; `Future` and `Gone` are left unchanged returning `None`. -/
def MaybeDoneState.take_output :
    MaybeDoneState α → MaybeDoneState α × Option α
  | .done v => (.gone, some v)
  | s => (s, none)

/-!
## Guard pair (`lifetime-guard/src/guard.rs`)

`ValueGuard<T>` holds `data: Cell<T>` and
`ref_guard: Cell<Option<NonNull<RefGuard<T>>>>`; `RefGuard<T>` holds
`value_guard: Cell<Option<NonNull<ValueGuard<T>>>>`.  The raw
`NonNull` pointers are modelled as indices into a world holding every
guard ever created; a dropped (deallocated) guard is `none` in the
world.  Fresh indices come from monotone counters, so an index is
never reused — sound because the Rust objects are pinned for the
lifetime of every link.
-/
structure ValueGuardObj (T : Type) where
  data : T
  ref_guard : Option Nat
deriving Repr, DecidableEq

structure RefGuardObj where
  value_guard : Option Nat
deriving Repr, DecidableEq

structure GuardWorld (T : Type) where
  values : Nat → Option (ValueGuardObj T)
  refs : Nat → Option RefGuardObj
  nv : Nat
  nr : Nat

/-- Point update of an index-addressed store. -/
def upd (f : Nat → Option X) (i : Nat) (x : Option X) : Nat → Option X :=
  fun j => if j = i then x else f j

/-- Update the object at index `i` when it is alive; dead or
out-of-range indices are left dead. -/
def modifyAt (f : Nat → Option X) (i : Nat) (g : X → X) : Nat → Option X :=
  upd f i ((f i).map g)

namespace GuardWorld

variable {T : Type}

/-- The world with no guards allocated. -/
def empty : GuardWorld T := ⟨fun _ => none, fun _ => none, 0, 0⟩

/-- `ValueGuard::new(data)` for a pinned, address-stable guard:
allocate a fresh value guard with no linked `RefGuard`. -/
def newValue (w : GuardWorld T) (t : T) : GuardWorld T :=
  { w with values := upd w.values w.nv (some ⟨t, none⟩), nv := w.nv + 1 }

/-- `RefGuard::new()`: allocate a fresh reference guard linked to no
`ValueGuard`. -/
def newRef (w : GuardWorld T) : GuardWorld T :=
  { w with refs := upd w.refs w.nr (some ⟨none⟩), nr := w.nr + 1 }

/-- `ValueGuard::set`. -/
def setData (w : GuardWorld T) (v : Nat) (t : T) : GuardWorld T :=
  { w with values := modifyAt w.values v (fun o => { o with data := t }) }

/-- `ValueGuard::invalidate_ref_guard`: `self.ref_guard.set(None)`. -/
def invalidate_ref_guard (w : GuardWorld T) (v : Nat) : GuardWorld T :=
  { w with values := modifyAt w.values v (fun o => { o with ref_guard := none }) }

/-- `RefGuard::invalidate_value_guard`: `self.value_guard.set(None)`. -/
def invalidate_value_guard (w : GuardWorld T) (r : Nat) : GuardWorld T :=
  { w with refs := modifyAt w.refs r (fun o => { o with value_guard := none }) }

/-- `ValueGuard::replace_ref_guard`: store the new partner pointer,
then tell the old partner (if any) to null its back-link:
`if let Some(guard) = self.ref_guard.replace(ref_guard)
{ (*guard.as_ptr()).invalidate_value_guard() }`.
The receiver must be alive (Rust calls it through a reference). -/
def replace_ref_guard (w : GuardWorld T) (v : Nat) (new : Option Nat) :
    GuardWorld T :=
  match w.values v with
  | none => w
  | some obj =>
      let w1 := { w with values := upd w.values v (some { obj with ref_guard := new }) }
      match obj.ref_guard with
      | some r0 => invalidate_value_guard w1 r0
      | none => w1

/-- `RefGuard::replace_value_guard`, symmetric to
`replace_ref_guard`. -/
def replace_value_guard (w : GuardWorld T) (r : Nat) (new : Option Nat) :
    GuardWorld T :=
  match w.refs r with
  | none => w
  | some obj =>
      let w1 := { w with refs := upd w.refs r (some { obj with value_guard := new }) }
      match obj.value_guard with
      | some v0 => invalidate_ref_guard w1 v0
      | none => w1

/-- `RefGuard::register(self, value_guard)`:
`value_guard.replace_ref_guard(Some(self));
self.replace_value_guard(Some(value_guard))`.
Both guards are alive in Rust (the method takes pinned references);
with a dead argument the call is unrepresentable and modelled as a
no-op. -/
def register (w : GuardWorld T) (r v : Nat) : GuardWorld T :=
  if (w.values v).isSome && (w.refs r).isSome then
    replace_value_guard (replace_ref_guard w v (some r)) r (some v)
  else w

/-- `Drop for ValueGuard`: `self.replace_ref_guard(None)` runs, then
the memory is released. -/
def dropValue (w : GuardWorld T) (v : Nat) : GuardWorld T :=
  let w1 := replace_ref_guard w v none
  { w1 with values := upd w1.values v none }

/-- `Drop for RefGuard`: `self.replace_value_guard(None)` runs, then
the memory is released. -/
def dropRef (w : GuardWorld T) (r : Nat) : GuardWorld T :=
  let w1 := replace_value_guard w r none
  { w1 with refs := upd w1.refs r none }

/-- `RefGuard::get`: `self.value_guard.get().map(|g| (*g).get())`.
The pointer dereference is modelled by a world lookup; under the
mutual-link invariant the target is always alive. -/
def getRef (w : GuardWorld T) (r : Nat) : Option T :=
  ((w.refs r).bind (·.value_guard)).bind fun v => (w.values v).map (·.data)

/-- One externally-invokable guard operation (`get` is read-only and
does not change the world). -/
inductive Op (T : Type) where
  | newValue (t : T)
  | newRef
  | setData (v : Nat) (t : T)
  | register (r v : Nat)
  | dropValue (v : Nat)
  | dropRef (r : Nat)

def applyOp (w : GuardWorld T) : Op T → GuardWorld T
  | .newValue t => w.newValue t
  | .newRef => w.newRef
  | .setData v t => w.setData v t
  | .register r v => w.register r v
  | .dropValue v => w.dropValue v
  | .dropRef r => w.dropRef r

def runOps (w : GuardWorld T) (ops : List (Op T)) : GuardWorld T :=
  ops.foldl applyOp w

/-- The partner pointer stored by the value guard at `v` (`none` when
the guard is dead or unlinked). -/
def vlink (w : GuardWorld T) (v : Nat) : Option Nat :=
  (w.values v).bind (·.ref_guard)

/-- The partner pointer stored by the ref guard at `r` (`none` when
the guard is dead or unlinked). -/
def rlink (w : GuardWorld T) (r : Nat) : Option Nat :=
  (w.refs r).bind (·.value_guard)

/-- Mutual-link invariant: a ref guard's stored pointer names a value
guard exactly when that value guard's stored pointer names that same
ref guard back — no one-sided link exists. -/
def Mutual (w : GuardWorld T) : Prop :=
  ∀ v r, vlink w v = some r ↔ rlink w r = some v

/-- Freshness: indices at or above the allocation counters are dead. -/
def Fresh (w : GuardWorld T) : Prop :=
  (∀ i, w.nv ≤ i → w.values i = none) ∧ (∀ i, w.nr ≤ i → w.refs i = none)

end GuardWorld

/-!
## Race combinator (`futures-combinators/src/race.rs`)

The macro `impl_race_tuple!` produces for each arity N = 2..12 the
same per-slot body, repeated once per declared child; the model
generalizes the repetition to a list of slots, the list position being
the declaration index.  Per slot, in declaration order:

```rust
self.wakers.$F.set_parent(wake);
self.refs.$F.replace(Some(&self.wakers.$F));
if self.wakers.$F.take_ready() {
    if let Poll::Ready(res) = self.$F.poll(...) {
        return Poll::Ready($OutputsName::$F(res));
    }
}
```
and `Poll::Pending` after the last slot.  A child polled with its own
`WakeStore` as handle may call `wake()` during the poll, which sets
that store's ready flag back to `true` (and forwards to the parent
handle, an effect outside the combinator's state).
-/
structure RaceSlot (α P : Type) where
  fut : SimFut α
  waker : WakeStore P

/-- Poll one race slot that was found woken: advance the child, and
apply the child's optional self-wake to the slot's store. -/
def raceRunSlot (fut : SimFut α) (w : WakeStore P) :
    SimFut α × WakeStore P × Option α :=
  let (f', out, sw) := fut.poll
  let w' := if sw then (w.wakeSelf).1 else w
  (f', w', out)

/-- The declaration-order scan of `Race::poll`; the returned index is
relative to the head of the processed list. -/
def racePollCore (wake : P) :
    List (RaceSlot α P) → List (RaceSlot α P) × Option (Nat × α)
  | [] => ([], none)
  | s :: rest =>
      let w1 := s.waker.set_parent wake
      let (rdy, w2) := w1.take_ready
      if rdy then
        match raceRunSlot s.fut w2 with
        | (f', w3, some v) => (⟨f', w3⟩ :: rest, some (0, v))
        | (f', w3, none) =>
            let (rest', r) := racePollCore wake rest
            (⟨f', w3⟩ :: rest', r.map fun p => (p.1 + 1, p.2))
      else
        let (rest', r) := racePollCore wake rest
        (⟨s.fut, w2⟩ :: rest', r.map fun p => (p.1 + 1, p.2))

/-- `Race::poll`: scan the slots; `Ready` tagged with the winning
declaration index, or `Pending` when no slot completes. -/
def racePoll (wake : P) (slots : List (RaceSlot α P)) :
    List (RaceSlot α P) × Poll (Nat × α) :=
  match racePollCore wake slots with
  | (slots', some (i, v)) => (slots', .ready (i, v))
  | (slots', none) => (slots', .pending)

/-- A race slot wins the moment it is examined: its ready flag is set
and its next poll returns `Ready`. -/
def slotWins (s : RaceSlot α P) : Bool :=
  s.waker.ready && (s.fut.res s.fut.k).isSome

/-!
## Join combinator (`futures-combinators/src/join.rs`)

The macro `impl_join_tuple!` produces for each arity N = 2..12 the
same per-slot body; as for Race, the repetition is modelled as a list.
`Join::poll`:

1. `debug_assert!(!matches!(slot, MaybeDone::Gone))` for every slot.
2. The parent handle is registered for every slot (via
   `wake_array.register_parent` and `child_guard_ptr(i).set_parent`).
3. Per slot, in declaration order:
   `ready &= if take_woken(i) { slot.poll(child handle).is_ready() }
             else { slot.is_terminated() }` — no early exit, `&=`
   does not short-circuit.
4. If `ready`, `take_output().unwrap_unchecked()` on every slot, in
   declaration order, returning the tuple; otherwise `Pending`.

`debug_assert!` failure and `MaybeDone`'s `Gone` panic are modelled as
`none`; `unwrap_unchecked()` on an absent output (undefined behavior
in Rust) is also modelled as `none`.
-/
structure JoinSlot (α P : Type) where
  md : MaybeDoneState α
  waker : WakeStore P

/-- Step 3 for a single join slot: register the parent, take the
woken flag, and either poll the `MaybeDone` (propagating the child's
self-wake into the slot's store) or fall back to `is_terminated`. -/
def joinSlotStep (wake : P) (s : JoinSlot α P) :
    Option (JoinSlot α P × Bool) :=
  let w1 := s.waker.set_parent wake
  let (rdy, w2) := w1.take_ready
  if rdy then
    match s.md.poll with
    | none => none
    | some (md', pr, sw) =>
        let w3 := if sw then (w2.wakeSelf).1 else w2
        some (⟨md', w3⟩, pr.isReady)
  else
    some (⟨s.md, w2⟩, s.md.is_done)

/-- The polling phase of `Join::poll` over all slots, with the
conjunction of the per-slot readiness results. -/
def joinPhase1 (wake : P) :
    List (JoinSlot α P) → Option (List (JoinSlot α P) × Bool)
  | [] => some ([], true)
  | s :: rest => do
      let (s', r) ← joinSlotStep wake s
      let (rest', rr) ← joinPhase1 wake rest
      pure (s' :: rest', r && rr)

/-- The extraction phase of `Join::poll`: `take_output` on every slot
in declaration order; an absent output is `unwrap_unchecked` undefined
behavior, modelled as `none`. -/
def joinTakeAll : List (JoinSlot α P) → Option (List (JoinSlot α P) × List α)
  | [] => some ([], [])
  | s :: rest =>
      match s.md.take_output with
      | (md', some v) => do
          let (rest', vs) ← joinTakeAll rest
          pure (⟨md', s.waker⟩ :: rest', v :: vs)
      | (_, none) => none

/-- `Join::poll`. -/
def joinPoll (wake : P) (slots : List (JoinSlot α P)) :
    Option (List (JoinSlot α P) × Poll (List α)) :=
  if slots.any (fun s => s.md.isGone) then none
  else
    match joinPhase1 wake slots with
    | none => none
    | some (slots', ready) =>
        if ready then
          match joinTakeAll slots' with
          | some (slots'', outs) => some (slots'', .ready outs)
          | none => none
        else some (slots', .pending)

/-- The output a join child has produced at the current instant:
the memoized value for a completed slot, the value of the child's next
poll (if ready) for a live slot. -/
def childOut (s : JoinSlot α P) : Option α :=
  match s.md with
  | .done v => some v
  | .future f => f.res f.k
  | .gone => none

/-!
## Theorems
-/

/-- A wake cell's wake sets its own flag and recursively wakes its
parent chain, so the resulting cell is `true` with the parent chain
woken. -/
theorem WakeCell.wake_eq (b : Bool) (p : Option WakeCell) :
    (WakeCell.mk b p).wake = .mk true (p.map WakeCell.wake) := by
  cases p <;> rfl

/-- C7: `WakeStore::wake` sets the readiness flag to `true` and, when a
parent handle is registered, unconditionally calls the parent's
`wake()` — regardless of the previous value of the flag (the flag `b`
below is arbitrary, in particular `true`); consequently a child cell
whose registered parent is itself a wake cell leaves that parent
marked ready.  Without a registered parent, `wake` only sets the
flag. -/
theorem wakeStore_wake_forwards (b : Bool) (p : WakeCell) :
    ((WakeCell.mk b (some p)).wake).readyFlag = true ∧
    ((WakeCell.mk b (some p)).wake).parentCell = some p.wake ∧
    (p.wake).readyFlag = true ∧
    (∀ b' : Bool, (WakeCell.mk b' none).wake = .mk true none) := by
  refine ⟨rfl, rfl, ?_, fun _ => rfl⟩
  cases p with
  | mk r q => rw [WakeCell.wake_eq]; rfl

/-- C5 counterexample: the claim says a `MaybeDone` already in the
Taken (`Gone`) state polls to `Ready(())`; the code instead panics
(`panic!("MaybeDone polled after value taken")`), modelled as `none`,
so no `Ready` result is produced. -/
theorem maybeDone_poll_gone_panics :
    MaybeDoneState.poll (α := Nat) .gone = none ∧
    ∀ r : MaybeDoneState Nat × Poll Unit × Bool,
      MaybeDoneState.poll (α := Nat) .gone ≠ some r := by
  exact ⟨rfl, fun r h => Option.noConfusion h⟩

/-- C5 (amended): a `MaybeDone` in the `Done` state polls to
`Ready(())` immediately, leaving the state unchanged and without
invoking any inner operation (the state holds no inner operation and
the reported wake flag is `false`); since the state is returned
unchanged, every subsequent poll behaves identically.  A `MaybeDone`
in the Taken (`Gone`) state does not return: polling it panics. -/
theorem maybeDone_poll_done_idempotent {α : Type} (v : α) :
    (MaybeDoneState.done v).poll = some (.done v, .ready (), false) ∧
    (MaybeDoneState.gone (α := α)).poll = none :=
  ⟨rfl, rfl⟩

/-- C9: `take_output` returns `Some(v)` exactly when the wrapper is
`Done(v)`, transitioning it to `Gone`; in any other state it returns
`None` and leaves the state unchanged; in particular a second
consecutive `take_output` always returns `None`. -/
theorem maybeDone_take_output_spec {α : Type} (s : MaybeDoneState α) :
    (∀ v, s = .done v → s.take_output = (.gone, some v)) ∧
    ((∀ v, s ≠ .done v) → s.take_output = (s, none)) ∧
    (∀ v, (s.take_output).2 = some v → s = .done v) ∧
    ((s.take_output).1.take_output).2 = none := by
  cases s with
  | future f =>
      refine ⟨?_, ?_, ?_, ?_⟩
      · intro v h; cases h
      · intro _; rfl
      · intro v h; simp [MaybeDoneState.take_output] at h
      · rfl
  | done v =>
      refine ⟨?_, ?_, ?_, ?_⟩
      · intro v' h; cases h; rfl
      · intro h; exact absurd rfl (h v)
      · intro v' h
        simp [MaybeDoneState.take_output] at h
        rw [h]
      · rfl
  | gone =>
      refine ⟨?_, ?_, ?_, ?_⟩
      · intro v h; cases h
      · intro _; rfl
      · intro v h; simp [MaybeDoneState.take_output] at h
      · rfl

/-- Witness for C9 at the concrete wrapper `Done 3`. -/
theorem maybeDone_take_output_spec_witness :
    (MaybeDoneState.done (3 : Nat)).take_output = (.gone, some 3) ∧
    ((MaybeDoneState.done (3 : Nat)).take_output).1.take_output.2 = none :=
  ⟨(maybeDone_take_output_spec (.done 3)).1 3 rfl,
   (maybeDone_take_output_spec (.done 3)).2.2.2⟩

/-!
### Race scan lemmas
-/

theorem racePollCore_cons_skip (wake : P) (s : RaceSlot α P)
    (rest : List (RaceSlot α P)) (hr : s.waker.ready = false) :
    racePollCore wake (s :: rest) =
      (⟨s.fut, ⟨some wake, false⟩⟩ :: (racePollCore wake rest).1,
        ((racePollCore wake rest).2).map fun p => (p.1 + 1, p.2)) := by
  rcases hc : racePollCore wake rest with ⟨rest', r⟩
  simp [racePollCore, WakeStore.set_parent, WakeStore.take_ready, hr, hc]

theorem racePollCore_cons_win (wake : P) (s : RaceSlot α P)
    (rest : List (RaceSlot α P)) (v : α)
    (hr : s.waker.ready = true) (ho : s.fut.res s.fut.k = some v) :
    racePollCore wake (s :: rest) =
      (⟨⟨s.fut.k + 1, s.fut.res, s.fut.selfWake⟩,
          ⟨some wake, s.fut.selfWake s.fut.k⟩⟩ :: rest, some (0, v)) := by
  simp only [racePollCore, WakeStore.set_parent, WakeStore.take_ready, hr,
    if_true, raceRunSlot, SimFut.poll, ho, WakeStore.wakeSelf]
  cases hw : s.fut.selfWake s.fut.k <;> simp [hw]

theorem racePollCore_cons_miss (wake : P) (s : RaceSlot α P)
    (rest : List (RaceSlot α P))
    (hr : s.waker.ready = true) (ho : s.fut.res s.fut.k = none) :
    racePollCore wake (s :: rest) =
      (⟨⟨s.fut.k + 1, s.fut.res, s.fut.selfWake⟩,
          ⟨some wake, s.fut.selfWake s.fut.k⟩⟩ :: (racePollCore wake rest).1,
        ((racePollCore wake rest).2).map fun p => (p.1 + 1, p.2)) := by
  rcases hc : racePollCore wake rest with ⟨rest', r⟩
  simp only [racePollCore, WakeStore.set_parent, WakeStore.take_ready, hr,
    if_true, raceRunSlot, SimFut.poll, ho, WakeStore.wakeSelf, hc]
  cases hw : s.fut.selfWake s.fut.k <;> simp [hw]

/-- The specification of the race scan over a slot list: `none` iff
no slot wins; a `some (i, v)` result names the first winning slot and
its output, with every later slot left untouched. -/
def RaceScanSpec (wake : P) (l : List (RaceSlot α P)) : Prop :=
  ((racePollCore wake l).2 = none ↔ ∀ s ∈ l, slotWins s = false) ∧
  (∀ i v, (racePollCore wake l).2 = some (i, v) →
    ∃ s, l.get? i = some s ∧ slotWins s = true ∧
      s.fut.res s.fut.k = some v ∧
      (∀ j, j < i → ∃ s', l.get? j = some s' ∧ slotWins s' = false) ∧
      (∀ j, i < j → ((racePollCore wake l).1).get? j = l.get? j))

/-- Induction step shared by the two non-winning head cases of the
race scan (head skipped, and head polled but pending). -/
theorem raceScanSpec_step (wake : P) (s head' : RaceSlot α P)
    (rest : List (RaceSlot α P)) (hws : slotWins s = false)
    (hcons : racePollCore wake (s :: rest) =
      (head' :: (racePollCore wake rest).1,
        ((racePollCore wake rest).2).map fun p => (p.1 + 1, p.2)))
    (ih : RaceScanSpec wake rest) : RaceScanSpec wake (s :: rest) := by
  constructor
  · rw [hcons]
    simp only [Option.map_eq_none', List.mem_cons]
    rw [ih.1]
    constructor
    · rintro h t (rfl | ht)
      · exact hws
      · exact h t ht
    · intro h t ht; exact h t (Or.inr ht)
  · intro i v hi
    rw [hcons] at hi
    simp only [Option.map_eq_some'] at hi
    obtain ⟨⟨j, v'⟩, hj, hjv⟩ := hi
    simp only [Prod.mk.injEq] at hjv
    obtain ⟨hi1, hv⟩ := hjv
    subst hi1; subst hv
    obtain ⟨t, ht, htw, htv, hbefore, hafter⟩ := ih.2 j v' hj
    refine ⟨t, by simpa using ht, htw, htv, ?_, ?_⟩
    · intro j' hj'
      cases j' with
      | zero => exact ⟨s, rfl, hws⟩
      | succ j'' =>
          obtain ⟨s', hs', hw'⟩ := hbefore j'' (by omega)
          exact ⟨s', by simpa using hs', hw'⟩
    · intro j' hj'
      rw [hcons]
      cases j' with
      | zero => omega
      | succ j'' =>
          simpa using hafter j'' (by omega)

/-- Full characterization of the race scan. -/
theorem racePollCore_spec (wake : P) (l : List (RaceSlot α P)) :
    RaceScanSpec wake l := by
  induction l with
  | nil =>
      constructor
      · simp [racePollCore]
      · intro i v hi; simp [racePollCore] at hi
  | cons s rest ih =>
      by_cases hr : s.waker.ready = true
      · cases ho : s.fut.res s.fut.k with
        | some v =>
            constructor
            · rw [racePollCore_cons_win wake s rest v hr ho]
              simp [slotWins, hr, ho]
            · intro i v' hi
              rw [racePollCore_cons_win wake s rest v hr ho] at hi
              simp only [Option.some.injEq, Prod.mk.injEq] at hi
              obtain ⟨hi0, hv⟩ := hi
              have hi0' : i = 0 := hi0.symm
              have hv' : v' = v := hv.symm
              subst hi0'; subst hv'
              refine ⟨s, rfl, by simp [slotWins, hr, ho], ho, ?_, ?_⟩
              · intro j hj; omega
              · intro j hj
                rw [racePollCore_cons_win wake s rest _ hr ho]
                cases j with
                | zero => omega
                | succ j' => simp
        | none =>
            exact raceScanSpec_step wake s _ rest
              (by simp [slotWins, hr, ho])
              (racePollCore_cons_miss wake s rest hr ho) ih
      · have hr' : s.waker.ready = false := by
          cases h : s.waker.ready
          · rfl
          · exact absurd h hr
        exact raceScanSpec_step wake s _ rest
          (by simp [slotWins, hr'])
          (racePollCore_cons_skip wake s rest hr') ih

/-- C2: a single `Race::poll` call scans slots in declaration order
and returns `Ready` tagged with the index and output of the first slot
(lowest declaration index) whose readiness flag was set and whose poll
returned `Ready`; every earlier slot did not win this call, and every
later slot is completely untouched (not polled — its state, including
its poll counter and wake store, is unchanged).  When no slot
completes, the call returns `Pending`. -/
theorem race_poll_first_ready_wins (wake : P) (slots : List (RaceSlot α P)) :
    ((racePoll wake slots).2 = .pending ↔ ∀ s ∈ slots, slotWins s = false) ∧
    (∀ i v, (racePoll wake slots).2 = .ready (i, v) →
      ∃ s, slots.get? i = some s ∧ slotWins s = true ∧
        s.fut.res s.fut.k = some v ∧
        (∀ j, j < i → ∃ s', slots.get? j = some s' ∧ slotWins s' = false) ∧
        (∀ j, i < j → ((racePoll wake slots).1).get? j = slots.get? j)) := by
  have hs := racePollCore_spec wake slots
  unfold RaceScanSpec at hs
  rcases hc : racePollCore wake slots with ⟨slots', r⟩
  rw [hc] at hs
  cases r with
  | none =>
      constructor
      · rw [show racePoll wake slots = (slots', .pending) by
          simp [racePoll, hc]]
        simpa using hs.1
      · intro i v hi
        rw [show racePoll wake slots = (slots', .pending) by
          simp [racePoll, hc]] at hi
        cases hi
  | some p =>
      rcases p with ⟨i0, v0⟩
      have hrp : racePoll wake slots = (slots', .ready (i0, v0)) := by
        simp [racePoll, hc]
      constructor
      · rw [hrp]
        constructor
        · intro h; cases h
        · intro hall
          have := hs.1.2 hall
          cases this
      · intro i v hi
        rw [hrp] at hi
        simp only [Poll.ready.injEq, Prod.mk.injEq] at hi
        obtain ⟨rfl, rfl⟩ := hi
        obtain ⟨s, h1, h2, h3, h4, h5⟩ := hs.2 i0 v0 rfl
        exact ⟨s, h1, h2, h3, h4, fun j hj => by rw [hrp]; exact h5 j hj⟩

/-- A race child that never completes and never wakes. -/
def racePendingSlot : RaceSlot Nat Unit :=
  ⟨⟨0, fun _ => none, fun _ => false⟩, ⟨none, true⟩⟩

/-- A race child that is immediately `Ready 7`. -/
def raceReadySlot : RaceSlot Nat Unit :=
  ⟨⟨0, fun _ => some 7, fun _ => false⟩, ⟨none, true⟩⟩

/-- Witness for C2 on a concrete two-slot race: slot 0 polls Pending,
slot 1 wins with output 7 and index 1. -/
theorem race_poll_first_ready_wins_witness :
    ∃ s, ([racePendingSlot, raceReadySlot]).get? 1 = some s ∧
      slotWins s = true ∧ s.fut.res s.fut.k = some 7 ∧
      (∀ j, j < 1 → ∃ s', ([racePendingSlot, raceReadySlot]).get? j = some s' ∧
        slotWins s' = false) ∧
      (∀ j, 1 < j →
        ((racePoll () [racePendingSlot, raceReadySlot]).1).get? j =
          ([racePendingSlot, raceReadySlot]).get? j) :=
  (race_poll_first_ready_wins () [racePendingSlot, raceReadySlot]).2 1 7 rfl

/-!
### Join slot-step lemmas
-/

theorem joinSlotStep_skip (wake : P) (s : JoinSlot α P)
    (hr : s.waker.ready = false) :
    joinSlotStep wake s = some (⟨s.md, ⟨some wake, false⟩⟩, s.md.is_done) := by
  simp [joinSlotStep, WakeStore.set_parent, WakeStore.take_ready, hr]

theorem joinSlotStep_done (wake : P) (s : JoinSlot α P) (v : α)
    (hr : s.waker.ready = true) (hm : s.md = .done v) :
    joinSlotStep wake s = some (⟨.done v, ⟨some wake, false⟩⟩, true) := by
  simp [joinSlotStep, WakeStore.set_parent, WakeStore.take_ready, hr, hm,
    MaybeDoneState.poll, Poll.isReady]

theorem joinSlotStep_complete (wake : P) (s : JoinSlot α P) (f : SimFut α)
    (v : α) (hr : s.waker.ready = true) (hm : s.md = .future f)
    (ho : f.res f.k = some v) :
    joinSlotStep wake s =
      some (⟨.done v, ⟨some wake, f.selfWake f.k⟩⟩, true) := by
  simp only [joinSlotStep, WakeStore.set_parent, WakeStore.take_ready, hr,
    if_true, hm, MaybeDoneState.poll, SimFut.poll, ho, WakeStore.wakeSelf,
    Poll.isReady]
  cases hw : f.selfWake f.k <;> simp [hw]

theorem joinSlotStep_stillPending (wake : P) (s : JoinSlot α P) (f : SimFut α)
    (hr : s.waker.ready = true) (hm : s.md = .future f)
    (ho : f.res f.k = none) :
    joinSlotStep wake s =
      some (⟨.future ⟨f.k + 1, f.res, f.selfWake⟩,
        ⟨some wake, f.selfWake f.k⟩⟩, false) := by
  simp only [joinSlotStep, WakeStore.set_parent, WakeStore.take_ready, hr,
    if_true, hm, MaybeDoneState.poll, SimFut.poll, ho, WakeStore.wakeSelf,
    Poll.isReady]
  cases hw : f.selfWake f.k <;> simp [hw]

/-- A slot that is not `Gone` always steps without a panic. -/
theorem joinSlotStep_isSome (wake : P) (s : JoinSlot α P)
    (hg : s.md.isGone = false) :
    ∃ s' r, joinSlotStep wake s = some (s', r) := by
  by_cases hr : s.waker.ready = true
  · cases hm : s.md with
    | future f =>
        cases ho : f.res f.k with
        | some v => exact ⟨_, _, joinSlotStep_complete wake s f v hr hm ho⟩
        | none => exact ⟨_, _, joinSlotStep_stillPending wake s f hr hm ho⟩
    | done v => exact ⟨_, _, joinSlotStep_done wake s v hr hm⟩
    | gone => rw [hm] at hg; cases hg
  · have hr' : s.waker.ready = false := by
      cases h : s.waker.ready
      · rfl
      · exact absurd h hr
    exact ⟨_, _, joinSlotStep_skip wake s hr'⟩

/-- Every successful slot step registers the supplied parent handle on
the slot's wake store. -/
theorem joinSlotStep_registers (wake : P) (s s' : JoinSlot α P) (r : Bool)
    (h : joinSlotStep wake s = some (s', r)) :
    s'.waker.parent = some wake := by
  by_cases hr : s.waker.ready = true
  · cases hm : s.md with
    | future f =>
        cases ho : f.res f.k with
        | some v =>
            rw [joinSlotStep_complete wake s f v hr hm ho] at h
            cases h; rfl
        | none =>
            rw [joinSlotStep_stillPending wake s f hr hm ho] at h
            cases h; rfl
    | done v =>
        rw [joinSlotStep_done wake s v hr hm] at h
        cases h; rfl
    | gone =>
        rw [show joinSlotStep wake s = none by
          simp [joinSlotStep, WakeStore.set_parent, WakeStore.take_ready, hr,
            hm, MaybeDoneState.poll]] at h
        cases h
  · have hr' : s.waker.ready = false := by
      cases hb : s.waker.ready
      · rfl
      · exact absurd hb hr
    rw [joinSlotStep_skip wake s hr'] at h
    cases h; rfl

/-- A slot step reporting ready leaves the slot `Done` carrying
exactly the child's output at the call's start. -/
theorem joinSlotStep_ready_done (wake : P) (s s' : JoinSlot α P)
    (hg : s.md.isGone = false)
    (h : joinSlotStep wake s = some (s', true)) :
    ∃ v, s'.md = .done v ∧ childOut s = some v := by
  by_cases hr : s.waker.ready = true
  · cases hm : s.md with
    | future f =>
        cases ho : f.res f.k with
        | some v =>
            rw [joinSlotStep_complete wake s f v hr hm ho] at h
            cases h
            exact ⟨v, rfl, by simp [childOut, hm, ho]⟩
        | none =>
            rw [joinSlotStep_stillPending wake s f hr hm ho] at h
            cases h
    | done v =>
        rw [joinSlotStep_done wake s v hr hm] at h
        cases h
        exact ⟨v, rfl, by simp [childOut, hm]⟩
    | gone => rw [hm] at hg; cases hg
  · have hr' : s.waker.ready = false := by
      cases hb : s.waker.ready
      · rfl
      · exact absurd hb hr
    rw [joinSlotStep_skip wake s hr'] at h
    cases hm : s.md with
    | future f =>
        rw [hm] at h
        simp [MaybeDoneState.is_done] at h
    | done v =>
        rw [hm] at h
        cases h
        exact ⟨v, rfl, by simp [childOut, hm]⟩
    | gone => rw [hm] at hg; cases hg

/-- The per-slot transition discipline of the join scan: a live child
whose woken flag is clear is not polled at all (its machine, counter
included, is unchanged); a live woken child is polled exactly once
(its counter advances from `k` to `k + 1`, or it completes with the
output of poll number `k`); a completed child's inner operation no
longer exists and cannot be polled. -/
theorem joinSlotStep_transitions (wake : P) (s s' : JoinSlot α P) (r : Bool)
    (h : joinSlotStep wake s = some (s', r)) :
    (∀ f, s.md = .future f → s.waker.ready = false → s'.md = .future f) ∧
    (∀ f, s.md = .future f → s.waker.ready = true →
      (f.res f.k = none → s'.md = .future ⟨f.k + 1, f.res, f.selfWake⟩) ∧
      (∀ v, f.res f.k = some v → s'.md = .done v)) ∧
    (∀ v, s.md = .done v → s'.md = .done v) := by
  refine ⟨?_, ?_, ?_⟩
  · intro f hm hr
    rw [joinSlotStep_skip wake s hr] at h
    cases h; exact hm
  · intro f hm hr
    constructor
    · intro ho
      rw [joinSlotStep_stillPending wake s f hr hm ho] at h
      cases h; rfl
    · intro v ho
      rw [joinSlotStep_complete wake s f v hr hm ho] at h
      cases h; rfl
  · intro v hm
    by_cases hr : s.waker.ready = true
    · rw [joinSlotStep_done wake s v hr hm] at h
      cases h; rfl
    · have hr' : s.waker.ready = false := by
        cases hb : s.waker.ready
        · rfl
        · exact absurd hb hr
      rw [joinSlotStep_skip wake s hr'] at h
      cases h; exact hm

/-- The join polling phase on gone-free slots never panics, maps each
slot through `joinSlotStep` at its own declaration index, and reports
ready only if every slot step reported ready. -/
theorem joinPhase1_spec (wake : P) (l : List (JoinSlot α P))
    (hg : ∀ s ∈ l, s.md.isGone = false) :
    ∃ l' rdy, joinPhase1 wake l = some (l', rdy) ∧
      l'.length = l.length ∧
      ∀ i s, l.get? i = some s → ∃ s' r,
        joinSlotStep wake s = some (s', r) ∧ l'.get? i = some s' ∧
        (rdy = true → r = true) := by
  induction l with
  | nil =>
      refine ⟨[], true, rfl, rfl, ?_⟩
      intro i s hi
      simp at hi
  | cons s rest ih =>
      obtain ⟨s', r, hstep⟩ := joinSlotStep_isSome wake s (hg s (List.mem_cons_self s rest))
      obtain ⟨rest', rr, hrest, hlen, hslots⟩ :=
        ih (fun t ht => hg t (List.mem_cons_of_mem s ht))
      refine ⟨s' :: rest', r && rr, ?_, by simp [hlen], ?_⟩
      · simp [joinPhase1, hstep, hrest]
      · intro i t hi
        cases i with
        | zero =>
            cases hi
            refine ⟨s', r, hstep, rfl, fun hb => ?_⟩
            simp only [Bool.and_eq_true] at hb
            exact hb.1
        | succ j =>
            obtain ⟨t', r', ht1, ht2, ht3⟩ := hslots j t (by simpa using hi)
            refine ⟨t', r', ht1, by simpa using ht2, fun hb => ?_⟩
            simp only [Bool.and_eq_true] at hb
            exact ht3 hb.2

/-- The extraction phase on all-`Done` slots: every output is present
and placed at its slot's declaration index; every wake store survives
unchanged. -/
theorem joinTakeAll_spec (l : List (JoinSlot α P))
    (h : ∀ s ∈ l, ∃ v, s.md = .done v) :
    ∃ l'' outs, joinTakeAll l = some (l'', outs) ∧
      outs.length = l.length ∧ l''.length = l.length ∧
      ∀ i s v, l.get? i = some s → s.md = .done v →
        outs.get? i = some v ∧ l''.get? i = some ⟨.gone, s.waker⟩ := by
  induction l with
  | nil =>
      refine ⟨[], [], rfl, rfl, rfl, ?_⟩
      intro i s v hi
      simp at hi
  | cons s rest ih =>
      obtain ⟨v, hv⟩ := h s (List.mem_cons_self s rest)
      obtain ⟨rest'', outs, hrest, hl1, hl2, hspec⟩ :=
        ih (fun t ht => h t (List.mem_cons_of_mem s ht))
      refine ⟨⟨.gone, s.waker⟩ :: rest'', v :: outs, ?_, by simp [hl1],
        by simp [hl2], ?_⟩
      · simp [joinTakeAll, hv, MaybeDoneState.take_output, hrest]
      · intro i t v' hi hm
        cases i with
        | zero =>
            cases hi
            rw [hv] at hm
            cases hm
            exact ⟨rfl, rfl⟩
        | succ j =>
            obtain ⟨h1, h2⟩ := hspec j t v' (by simpa using hi) hm
            exact ⟨by simpa using h1, by simpa using h2⟩

/-- C1: a `Join::poll` call on any reachable (gone-free) slot
configuration never fails, and whenever it returns overall `Ready`
the returned sequence has exactly one entry per declared child, and
the entry at declaration index `i` is child `i`'s output — present
for every slot (`take_output` never yields `None` on the `Ready`
path).  The hypothesis quantifies over arbitrary mixtures of
already-`Done` and still-live slots, so the conclusion holds no matter
in which order the children completed across preceding poll calls. -/
theorem join_poll_outputs_in_declaration_order (wake : P)
    (slots : List (JoinSlot α P)) (hg : ∀ s ∈ slots, s.md.isGone = false) :
    ∃ res, joinPoll wake slots = some res ∧
      ∀ outs, res.2 = .ready outs →
        outs.length = slots.length ∧
        ∀ i s, slots.get? i = some s →
          ∃ v, childOut s = some v ∧ outs.get? i = some v := by
  have hany : slots.any (fun s => s.md.isGone) = false := by
    cases h : slots.any (fun s => s.md.isGone)
    · rfl
    · exfalso
      obtain ⟨x, hx, hxg⟩ := List.any_eq_true.mp h
      rw [hg x hx] at hxg
      cases hxg
  obtain ⟨l', rdy, hphase, hlen, hslots⟩ := joinPhase1_spec wake slots hg
  cases rdy with
  | false =>
      refine ⟨(l', .pending), ?_, ?_⟩
      · simp [joinPoll, hany, hphase]
      · intro outs h
        cases h
  | true =>
      have hdone : ∀ t ∈ l', ∃ v, t.md = .done v := by
        intro t ht
        obtain ⟨i, hi⟩ := List.mem_iff_get?.mp ht
        have hilt : i < slots.length := by
          rw [← hlen]
          exact List.get?_eq_some.mp hi |>.1
        obtain ⟨s, hsi⟩ : ∃ s, slots.get? i = some s := by
          rw [List.get?_eq_get hilt]
          exact ⟨_, rfl⟩
        obtain ⟨s', r, hstep, hgt, himp⟩ := hslots i s hsi
        rw [hi] at hgt
        cases hgt
        have hr : r = true := himp rfl
        subst hr
        obtain ⟨v, hv, _⟩ :=
          joinSlotStep_ready_done wake s t (hg s (List.get?_mem hsi)) hstep
        exact ⟨v, hv⟩
      obtain ⟨l'', outs, htake, ho1, _, hospec⟩ := joinTakeAll_spec l' hdone
      refine ⟨(l'', .ready outs), ?_, ?_⟩
      · simp [joinPoll, hany, hphase, htake]
      · intro outs' h
        cases h
        refine ⟨by rw [ho1, hlen], ?_⟩
        intro i s hsi
        obtain ⟨s', r, hstep, hgt, himp⟩ := hslots i s hsi
        have hr : r = true := himp rfl
        subst hr
        obtain ⟨v, hsv, hcv⟩ :=
          joinSlotStep_ready_done wake s s' (hg s (List.get?_mem hsi)) hstep
        obtain ⟨h1, _⟩ := hospec i s' v hgt hsv
        exact ⟨v, hcv, h1⟩

/-- A join slot whose child completed on an earlier poll call. -/
def joinDoneSlot : JoinSlot Nat Unit := ⟨.done 4, ⟨none, false⟩⟩

/-- A join slot whose child completes with 5 on its third poll, two
polls having already happened. -/
def joinReadySlot : JoinSlot Nat Unit :=
  ⟨.future ⟨2, fun k => if k = 2 then some 5 else none, fun _ => false⟩,
    ⟨none, true⟩⟩

/-- Witness for C1 on a concrete two-slot join in which the children
completed in reverse declaration order (slot 0 long done, slot 1
completing only now). -/
theorem join_poll_outputs_in_declaration_order_witness :
    ∃ res, joinPoll () [joinDoneSlot, joinReadySlot] = some res ∧
      ∀ outs, res.2 = .ready outs →
        outs.length = ([joinDoneSlot, joinReadySlot]).length ∧
        ∀ i s, ([joinDoneSlot, joinReadySlot]).get? i = some s →
          ∃ v, childOut s = some v ∧ outs.get? i = some v :=
  join_poll_outputs_in_declaration_order () [joinDoneSlot, joinReadySlot]
    (by intro s hs; fin_cases hs <;> rfl)

/-- C6: within a single `Join::poll` call, every child is polled at
most once, and a child whose woken flag is false at its turn and whose
slot is not already `Done` is not polled at all.  Inner polls happen
only in the scan phase (`joinPhase1`); the per-slot result shows a
live unwoken child unchanged (counter included: zero polls), a live
woken child advanced by exactly one poll (counter `k` to `k + 1`, or
memoized from poll number `k`), and a completed child's slot inert. -/
theorem join_poll_polls_each_child_at_most_once (wake : P)
    (slots : List (JoinSlot α P)) (hg : ∀ s ∈ slots, s.md.isGone = false) :
    ∃ l' rdy, joinPhase1 wake slots = some (l', rdy) ∧
      ∀ i s, slots.get? i = some s → ∃ s', l'.get? i = some s' ∧
        (∀ f, s.md = .future f → s.waker.ready = false → s'.md = .future f) ∧
        (∀ f, s.md = .future f → s.waker.ready = true →
          (f.res f.k = none → s'.md = .future ⟨f.k + 1, f.res, f.selfWake⟩) ∧
          (∀ v, f.res f.k = some v → s'.md = .done v)) ∧
        (∀ v, s.md = .done v → s'.md = .done v) := by
  obtain ⟨l', rdy, hphase, _, hslots⟩ := joinPhase1_spec wake slots hg
  refine ⟨l', rdy, hphase, ?_⟩
  intro i s hsi
  obtain ⟨s', r, hstep, hgt, _⟩ := hslots i s hsi
  obtain ⟨t1, t2, t3⟩ := joinSlotStep_transitions wake s s' r hstep
  exact ⟨s', hgt, t1, t2, t3⟩

/-- A live join slot that was not woken since its last poll. -/
def joinIdleSlot : JoinSlot Nat Unit :=
  ⟨.future ⟨1, fun _ => none, fun _ => false⟩, ⟨none, false⟩⟩

/-- Witness for C6 on a concrete scan over an unwoken live slot and a
woken completed slot. -/
theorem join_poll_polls_each_child_at_most_once_witness :
    ∃ l' rdy, joinPhase1 () [joinIdleSlot, joinDoneSlot] = some (l', rdy) ∧
      ∀ i s, ([joinIdleSlot, joinDoneSlot]).get? i = some s →
        ∃ s', l'.get? i = some s' ∧
          (∀ f, s.md = .future f → s.waker.ready = false →
            s'.md = .future f) ∧
          (∀ f, s.md = .future f → s.waker.ready = true →
            (f.res f.k = none →
              s'.md = .future ⟨f.k + 1, f.res, f.selfWake⟩) ∧
            (∀ v, f.res f.k = some v → s'.md = .done v)) ∧
          (∀ v, s.md = .done v → s'.md = .done v) :=
  join_poll_polls_each_child_at_most_once () [joinIdleSlot, joinDoneSlot]
    (by intro s hs; fin_cases hs <;> rfl)

/-!
### Parent registration
-/

/-- Slots of a gone-free list report no gone slot to `List.any`. -/
theorem join_any_gone_false (slots : List (JoinSlot α P))
    (hg : ∀ s ∈ slots, s.md.isGone = false) :
    slots.any (fun s => s.md.isGone) = false := by
  cases h : slots.any (fun s => s.md.isGone)
  · rfl
  · exfalso
    obtain ⟨x, hx, hxg⟩ := List.any_eq_true.mp h
    rw [hg x hx] at hxg
    cases hxg

/-- After a ready scan every phase-1 slot is `Done`. -/
theorem joinPhase1_true_all_done (wake : P) (slots l' : List (JoinSlot α P))
    (hg : ∀ s ∈ slots, s.md.isGone = false)
    (hphase : joinPhase1 wake slots = some (l', true)) :
    ∀ t ∈ l', ∃ v, t.md = .done v := by
  obtain ⟨l2, rdy, hp2, hlen, hslots⟩ := joinPhase1_spec wake slots hg
  rw [hphase] at hp2
  obtain ⟨rfl, rfl⟩ : l2 = l' ∧ rdy = true := by
    cases hp2; exact ⟨rfl, rfl⟩
  intro t ht
  obtain ⟨i, hi⟩ := List.mem_iff_get?.mp ht
  have hilt : i < slots.length := by
    rw [← hlen]
    exact List.get?_eq_some.mp hi |>.1
  obtain ⟨s, hsi⟩ : ∃ s, slots.get? i = some s := by
    rw [List.get?_eq_get hilt]
    exact ⟨_, rfl⟩
  obtain ⟨s', r, hstep, hgt, himp⟩ := hslots i s hsi
  rw [hi] at hgt
  cases hgt
  have hr : r = true := himp rfl
  subst hr
  obtain ⟨v, hv, _⟩ :=
    joinSlotStep_ready_done wake s t (hg s (List.get?_mem hsi)) hstep
  exact ⟨v, hv⟩

/-- Registration specification of the race scan: the parent handle is
stored in every scanned slot — all of them when the scan found no
winner, and exactly the slots up to and including the winner
otherwise. -/
def RaceRegSpec (wake : P) (l : List (RaceSlot α P)) : Prop :=
  ((racePollCore wake l).2 = none →
    ∀ i s', ((racePollCore wake l).1).get? i = some s' →
      s'.waker.parent = some wake) ∧
  (∀ iw v, (racePollCore wake l).2 = some (iw, v) →
    ∀ i, i ≤ iw → ∀ s', ((racePollCore wake l).1).get? i = some s' →
      s'.waker.parent = some wake)

/-- Induction step of the registration specification for the two head
cases that continue the scan. -/
theorem raceRegSpec_step (wake : P) (s head' : RaceSlot α P)
    (rest : List (RaceSlot α P)) (hpar : head'.waker.parent = some wake)
    (hcons : racePollCore wake (s :: rest) =
      (head' :: (racePollCore wake rest).1,
        ((racePollCore wake rest).2).map fun p => (p.1 + 1, p.2)))
    (ih : RaceRegSpec wake rest) : RaceRegSpec wake (s :: rest) := by
  constructor
  · intro hnone i s' hi
    rw [hcons] at hnone hi
    simp only [Option.map_eq_none'] at hnone
    cases i with
    | zero => cases hi; exact hpar
    | succ j => exact ih.1 hnone j s' (by simpa using hi)
  · intro iw v hw i hile s' hi
    rw [hcons] at hw hi
    simp only [Option.map_eq_some'] at hw
    obtain ⟨⟨j, v'⟩, hj, hjv⟩ := hw
    simp only [Prod.mk.injEq] at hjv
    obtain ⟨hiw, hv⟩ := hjv
    cases i with
    | zero => cases hi; exact hpar
    | succ i' =>
        have hv' : v' = v := hv
        subst hv'
        refine ih.2 j v' hj i' (by omega) s' (by simpa using hi)

/-- The race scan registers the parent on every slot up to and
including the winner (on all slots when there is no winner). -/
theorem racePollCore_registers (wake : P) (l : List (RaceSlot α P)) :
    RaceRegSpec wake l := by
  induction l with
  | nil =>
      constructor
      · intro _ i s' hi
        simp [racePollCore] at hi
      · intro iw v hw
        simp [racePollCore] at hw
  | cons s rest ih =>
      by_cases hr : s.waker.ready = true
      · cases ho : s.fut.res s.fut.k with
        | some v =>
            constructor
            · intro hnone
              rw [racePollCore_cons_win wake s rest v hr ho] at hnone
              cases hnone
            · intro iw v' hw i hile s' hi
              rw [racePollCore_cons_win wake s rest v hr ho] at hw hi
              simp only [Option.some.injEq, Prod.mk.injEq] at hw
              obtain ⟨hiw, _⟩ := hw
              have hi0 : i = 0 := by omega
              subst hi0
              cases hi; rfl
        | none =>
            exact raceRegSpec_step wake s _ rest rfl
              (racePollCore_cons_miss wake s rest hr ho) ih
      · have hr' : s.waker.ready = false := by
          cases hb : s.waker.ready
          · rfl
          · exact absurd hb hr
        exact raceRegSpec_step wake s _ rest rfl
          (racePollCore_cons_skip wake s rest hr') ih

/-- C8 counterexample: on a two-slot race whose first slot wins, the
poll returns `Ready` tagged `(0, 7)` but slot 1's wake cell never has
the parent registered during that call — its store still has no
parent — refuting "registered as the parent of all N children's Wake
Cells during that call, including calls that return Ready". -/
theorem race_poll_omits_registration_after_winner :
    (racePoll () [raceReadySlot, racePendingSlot]).2 = .ready (0, 7) ∧
    ((racePoll () [raceReadySlot, racePendingSlot]).1).get? 1 =
      some racePendingSlot ∧
    racePendingSlot.waker.parent = none :=
  ⟨rfl, rfl, rfl⟩

/-- C8 (amended): during every `Join::poll` call — including calls
that return overall `Ready` — the supplied parent wake handle is
registered as the parent on all N children's wake cells; during a
`Race::poll` call the parent is registered in declaration order only
on the slots actually examined: all N when the call returns `Pending`,
and exactly the slots up to and including the winner when it returns
`Ready`, later slots being untouched. -/
theorem join_race_parent_registration (wake : P)
    (slots : List (JoinSlot α P)) (rslots : List (RaceSlot α P))
    (hg : ∀ s ∈ slots, s.md.isGone = false) :
    (∃ res, joinPoll wake slots = some res ∧
      ∀ i s', res.1.get? i = some s' → s'.waker.parent = some wake) ∧
    ((racePoll wake rslots).2 = .pending →
      ∀ i s', ((racePoll wake rslots).1).get? i = some s' →
        s'.waker.parent = some wake) ∧
    (∀ iw v, (racePoll wake rslots).2 = .ready (iw, v) →
      ∀ i, i ≤ iw → ∀ s', ((racePoll wake rslots).1).get? i = some s' →
        s'.waker.parent = some wake) := by
  refine ⟨?_, ?_, ?_⟩
  · have hany := join_any_gone_false slots hg
    obtain ⟨l', rdy, hphase, hlen, hslots⟩ := joinPhase1_spec wake slots hg
    have hreg : ∀ i s', l'.get? i = some s' → s'.waker.parent = some wake := by
      intro i s' hi
      have hilt : i < slots.length := by
        rw [← hlen]
        exact List.get?_eq_some.mp hi |>.1
      obtain ⟨s, hsi⟩ : ∃ s, slots.get? i = some s := by
        rw [List.get?_eq_get hilt]
        exact ⟨_, rfl⟩
      obtain ⟨s'', r, hstep, hgt, _⟩ := hslots i s hsi
      rw [hi] at hgt
      cases hgt
      exact joinSlotStep_registers wake s s' r hstep
    cases rdy with
    | false =>
        refine ⟨(l', .pending), by simp [joinPoll, hany, hphase], ?_⟩
        exact hreg
    | true =>
        have hdone := joinPhase1_true_all_done wake slots l' hg hphase
        obtain ⟨l'', outs, htake, _, hl2, hospec⟩ := joinTakeAll_spec l' hdone
        refine ⟨(l'', .ready outs), by simp [joinPoll, hany, hphase, htake], ?_⟩
        intro i t hi
        have hilt : i < l'.length := by
          rw [← hl2]
          exact List.get?_eq_some.mp hi |>.1
        obtain ⟨s', hsi⟩ : ∃ s', l'.get? i = some s' := by
          rw [List.get?_eq_get hilt]
          exact ⟨_, rfl⟩
        obtain ⟨v, hv⟩ := hdone s' (List.get?_mem hsi)
        obtain ⟨_, h2⟩ := hospec i s' v hsi hv
        rw [hi] at h2
        cases h2
        exact hreg i s' hsi
  · intro hpend i s' hi
    have hs := racePollCore_registers wake rslots
    rcases hc : racePollCore wake rslots with ⟨l1, r⟩
    unfold RaceRegSpec at hs
    rw [hc] at hs
    cases r with
    | none =>
        have h1 : (racePoll wake rslots).1 = l1 := by simp [racePoll, hc]
        rw [h1] at hi
        exact hs.1 rfl i s' hi
    | some p =>
        rw [show (racePoll wake rslots).2 = .ready (p.1, p.2) by
          simp [racePoll, hc]] at hpend
        cases hpend
  · intro iw v hw i hile s' hi
    have hs := racePollCore_registers wake rslots
    rcases hc : racePollCore wake rslots with ⟨l1, r⟩
    unfold RaceRegSpec at hs
    rw [hc] at hs
    cases r with
    | none =>
        rw [show (racePoll wake rslots).2 = .pending by
          simp [racePoll, hc]] at hw
        cases hw
    | some p =>
        have h2 : (racePoll wake rslots).2 = .ready (p.1, p.2) := by
          simp [racePoll, hc]
        rw [h2] at hw
        simp only [Poll.ready.injEq, Prod.mk.injEq] at hw
        obtain ⟨hw1, hw2⟩ := hw
        have h1 : (racePoll wake rslots).1 = l1 := by simp [racePoll, hc]
        rw [h1] at hi
        exact hs.2 p.1 p.2 (by simp) i (by omega) s' hi

/-- Witness for C8 (amended) on a concrete one-slot join and one-slot
race. -/
theorem join_race_parent_registration_witness :
    (∃ res, joinPoll () [joinDoneSlot] = some res ∧
      ∀ i s', res.1.get? i = some s' → s'.waker.parent = some ()) ∧
    ((racePoll () [racePendingSlot]).2 = .pending →
      ∀ i s', ((racePoll () [racePendingSlot]).1).get? i = some s' →
        s'.waker.parent = some ()) ∧
    (∀ iw v, (racePoll () [racePendingSlot]).2 = .ready (iw, v) →
      ∀ i, i ≤ iw → ∀ s', ((racePoll () [racePendingSlot]).1).get? i = some s' →
        s'.waker.parent = some ()) :=
  join_race_parent_registration () [joinDoneSlot] [racePendingSlot]
    (by intro s hs; fin_cases hs; rfl)

/-!
### Guard-pair claims
-/

namespace GuardWorld

variable {T : Type}

/-- C3: for a linked guard pair (`v`, `r`), dropping the `ValueGuard`
nulls the partner `RefGuard`'s link as part of destruction, so a
subsequent `get()` on that `RefGuard` returns `None`; symmetrically,
dropping the `RefGuard` nulls the `ValueGuard`'s back-link. -/
theorem guard_drop_invalidates (w : GuardWorld T) (v r : Nat)
    (vo : ValueGuardObj T) (ro : RefGuardObj)
    (hv : w.values v = some vo) (hvr : vo.ref_guard = some r)
    (hr : w.refs r = some ro) (hrv : ro.value_guard = some v) :
    getRef (dropValue w v) r = none ∧
    (dropRef w r).values v = some { vo with ref_guard := none } := by
  constructor
  · simp [dropValue, replace_ref_guard, hv, hvr, invalidate_value_guard,
      getRef, modifyAt, upd, hr]
  · simp [dropRef, replace_value_guard, hr, hrv, invalidate_ref_guard,
      modifyAt, upd, hv]

/-- The world `{value 0 ↦ 5} ∪ {ref 0}` with `register 0 0` applied:
value guard 0 and ref guard 0 mutually linked. -/
def linkedPairWorld : GuardWorld Nat :=
  register (newRef (newValue empty 5)) 0 0

/-- Witness for C3 on the concrete linked pair. -/
theorem guard_drop_invalidates_witness :
    getRef (dropValue linkedPairWorld 0) 0 = none ∧
    (dropRef linkedPairWorld 0).values 0 = some ⟨5, none⟩ :=
  guard_drop_invalidates linkedPairWorld 0 0 ⟨5, some 0⟩ ⟨some 0⟩
    rfl rfl rfl rfl

/-- C4: last registration wins on both sides.  First part: with
(`v`, `r1`) mutually linked and `r2` a live unlinked `RefGuard`,
registering `r2` onto `v` invalidates `r1` (its `get()` returns
`None`) while `r2.get()` returns the value guard's current value.
Second part: with (`v1`, `r`) mutually linked and `v2` a live unlinked
`ValueGuard`, registering `r` onto `v2` nulls `v1`'s back-link and
`r.get()` now reads `v2`'s value. -/
theorem guard_last_registration_wins (w : GuardWorld T) :
    (∀ v r1 r2 (vo : ValueGuardObj T) (r1o r2o : RefGuardObj),
      w.values v = some vo → vo.ref_guard = some r1 →
      w.refs r1 = some r1o → r1o.value_guard = some v →
      w.refs r2 = some r2o → r2o.value_guard = none → r1 ≠ r2 →
      getRef (register w r2 v) r1 = none ∧
      getRef (register w r2 v) r2 = some vo.data) ∧
    (∀ v1 v2 r (v1o v2o : ValueGuardObj T) (ro : RefGuardObj),
      w.values v1 = some v1o → v1o.ref_guard = some r →
      w.refs r = some ro → ro.value_guard = some v1 →
      w.values v2 = some v2o → v2o.ref_guard = none → v1 ≠ v2 →
      (register w r v2).values v1 = some { v1o with ref_guard := none } ∧
      getRef (register w r v2) r = some v2o.data) := by
  constructor
  · intro v r1 r2 vo r1o r2o hv hvr hr1 hr1v hr2 hr2v hne
    constructor
    · simp [register, hv, hr2, replace_ref_guard, replace_value_guard,
        invalidate_value_guard, invalidate_ref_guard, getRef, modifyAt,
        upd, hvr, hr1, hr1v, hr2v, hne, Ne.symm hne]
    · simp [register, hv, hr2, replace_ref_guard, replace_value_guard,
        invalidate_value_guard, invalidate_ref_guard, getRef, modifyAt,
        upd, hvr, hr1, hr1v, hr2v, hne, Ne.symm hne]
  · intro v1 v2 r v1o v2o ro hv1 hv1r hr hrv1 hv2 hv2r hne
    constructor
    · simp [register, hv2, hr, replace_ref_guard, replace_value_guard,
        invalidate_value_guard, invalidate_ref_guard, modifyAt,
        upd, hv1, hv1r, hrv1, hv2r, hne, Ne.symm hne]
    · simp [register, hv2, hr, replace_ref_guard, replace_value_guard,
        invalidate_value_guard, invalidate_ref_guard, getRef, modifyAt,
        upd, hv1, hv1r, hrv1, hv2r, hne, Ne.symm hne]

/-- Two value guards (values 5 and 6) and two ref guards, with ref 0
registered to value 0. -/
def twoPairWorld : GuardWorld Nat :=
  register (newRef (newRef (newValue (newValue empty 5) 6))) 0 0

/-- Witness for C4 on the concrete two-pair world: re-registering ref
guard 1 onto value guard 0 kills ref guard 0's link, and re-registering
ref guard 0 onto value guard 1 kills value guard 0's back-link. -/
theorem guard_last_registration_wins_witness :
    (getRef (register twoPairWorld 1 0) 0 = none ∧
      getRef (register twoPairWorld 1 0) 1 = some 5) ∧
    ((register twoPairWorld 0 1).values 0 = some ⟨5, none⟩ ∧
      getRef (register twoPairWorld 0 1) 0 = some 6) :=
  ⟨(guard_last_registration_wins twoPairWorld).1 0 0 1 ⟨5, some 0⟩
      ⟨some 0⟩ ⟨none⟩ rfl rfl rfl rfl rfl rfl (by decide),
   (guard_last_registration_wins twoPairWorld).2 0 1 0 ⟨5, some 0⟩
      ⟨6, none⟩ ⟨some 0⟩ rfl rfl rfl rfl rfl rfl (by decide)⟩

end GuardWorld

/-!
### Pointwise update lemmas
-/

theorem upd_self (f : Nat → Option X) (i : Nat) (x : Option X) :
    upd f i x i = x := by
  simp [upd]

theorem upd_ne (f : Nat → Option X) (i j : Nat) (x : Option X) (h : j ≠ i) :
    upd f i x j = f j := by
  simp [upd, h]

theorem modifyAt_self (f : Nat → Option X) (i : Nat) (g : X → X) :
    modifyAt f i g i = (f i).map g := by
  simp [modifyAt, upd]

theorem modifyAt_ne (f : Nat → Option X) (i j : Nat) (g : X → X)
    (h : j ≠ i) : modifyAt f i g j = f j := by
  simp [modifyAt, upd, h]

theorem modifyAt_none (f : Nat → Option X) (i j : Nat) (g : X → X)
    (h : f j = none) : modifyAt f i g j = none := by
  by_cases hij : j = i
  · subst hij
    rw [modifyAt_self, h]
    rfl
  · rw [modifyAt_ne f i j g hij, h]

theorem modifyAt_isSome (f : Nat → Option X) (i j : Nat) (g : X → X) :
    (modifyAt f i g j).isSome = (f j).isSome := by
  by_cases hij : j = i
  · subst hij
    rw [modifyAt_self]
    cases hfj : f j <;> simp [hfj]
  · rw [modifyAt_ne f i j g hij]

theorem opt_eq_none_of_isSome_false {o : Option X} (h : o.isSome = false) :
    o = none := by
  cases o
  · rfl
  · cases h

namespace GuardWorld

variable {T : Type}

/-!
### Link computation of the guard primitives
-/

theorem replace_ref_guard_values (w : GuardWorld T) (v : Nat)
    (new : Option Nat) (vo : ValueGuardObj T) (h1 : w.values v = some vo) :
    (replace_ref_guard w v new).values =
      upd w.values v (some { vo with ref_guard := new }) := by
  cases hro : vo.ref_guard <;>
    simp [replace_ref_guard, h1, hro, invalidate_value_guard]

theorem replace_ref_guard_refs (w : GuardWorld T) (v : Nat)
    (new : Option Nat) (vo : ValueGuardObj T) (h1 : w.values v = some vo)
    (r' : Nat) :
    (replace_ref_guard w v new).refs r' =
      if vo.ref_guard = some r'
      then (w.refs r').map (fun o => { o with value_guard := none })
      else w.refs r' := by
  cases hro : vo.ref_guard with
  | none => simp [replace_ref_guard, h1, hro]
  | some r0 =>
      by_cases h : r' = r0
      · subst h
        simp [replace_ref_guard, h1, hro, invalidate_value_guard,
          modifyAt, upd]
      · have h' : ¬(r0 = r') := fun hh => h hh.symm
        simp [replace_ref_guard, h1, hro, invalidate_value_guard,
          modifyAt, upd, h, h']

theorem replace_ref_guard_vlink (w : GuardWorld T) (v : Nat)
    (new : Option Nat) (vo : ValueGuardObj T) (h1 : w.values v = some vo)
    (v' : Nat) :
    vlink (replace_ref_guard w v new) v' =
      if v' = v then new else vlink w v' := by
  rw [vlink, replace_ref_guard_values w v new vo h1]
  by_cases h : v' = v
  · subst h
    rw [upd_self]
    simp
  · rw [upd_ne _ _ _ _ h, vlink]
    simp [h]

theorem replace_ref_guard_rlink (w : GuardWorld T) (v : Nat)
    (new : Option Nat) (vo : ValueGuardObj T) (h1 : w.values v = some vo)
    (r' : Nat) :
    rlink (replace_ref_guard w v new) r' =
      if vo.ref_guard = some r' then none else rlink w r' := by
  rw [rlink, replace_ref_guard_refs w v new vo h1 r']
  by_cases h : vo.ref_guard = some r'
  · rw [if_pos h, if_pos h]
    cases w.refs r' <;> rfl
  · rw [if_neg h, if_neg h, rlink]

theorem replace_value_guard_refs (w : GuardWorld T) (r : Nat)
    (new : Option Nat) (ro : RefGuardObj) (h2 : w.refs r = some ro) :
    (replace_value_guard w r new).refs =
      upd w.refs r (some { ro with value_guard := new }) := by
  cases hvo : ro.value_guard <;>
    simp [replace_value_guard, h2, hvo, invalidate_ref_guard]

theorem replace_value_guard_values (w : GuardWorld T) (r : Nat)
    (new : Option Nat) (ro : RefGuardObj) (h2 : w.refs r = some ro)
    (v' : Nat) :
    (replace_value_guard w r new).values v' =
      if ro.value_guard = some v'
      then (w.values v').map (fun o => { o with ref_guard := none })
      else w.values v' := by
  cases hvo : ro.value_guard with
  | none => simp [replace_value_guard, h2, hvo]
  | some v0 =>
      by_cases h : v' = v0
      · subst h
        simp [replace_value_guard, h2, hvo, invalidate_ref_guard,
          modifyAt, upd]
      · have h' : ¬(v0 = v') := fun hh => h hh.symm
        simp [replace_value_guard, h2, hvo, invalidate_ref_guard,
          modifyAt, upd, h, h']

theorem replace_value_guard_rlink (w : GuardWorld T) (r : Nat)
    (new : Option Nat) (ro : RefGuardObj) (h2 : w.refs r = some ro)
    (r' : Nat) :
    rlink (replace_value_guard w r new) r' =
      if r' = r then new else rlink w r' := by
  rw [rlink, replace_value_guard_refs w r new ro h2]
  by_cases h : r' = r
  · subst h
    rw [upd_self]
    simp
  · rw [upd_ne _ _ _ _ h, rlink]
    simp [h]

theorem replace_value_guard_vlink (w : GuardWorld T) (r : Nat)
    (new : Option Nat) (ro : RefGuardObj) (h2 : w.refs r = some ro)
    (v' : Nat) :
    vlink (replace_value_guard w r new) v' =
      if ro.value_guard = some v' then none else vlink w v' := by
  rw [vlink, replace_value_guard_values w r new ro h2 v']
  by_cases h : ro.value_guard = some v'
  · rw [if_pos h, if_pos h]
    cases w.values v' <;> rfl
  · rw [if_neg h, if_neg h, vlink]

theorem register_rlink (w : GuardWorld T) (r v : Nat)
    (vo : ValueGuardObj T) (ro : RefGuardObj)
    (h1 : w.values v = some vo) (h2 : w.refs r = some ro) (r' : Nat) :
    rlink (register w r v) r' =
      if r' = r then some v
      else if vo.ref_guard = some r' then none else rlink w r' := by
  rw [register, if_pos (by simp [h1, h2])]
  obtain ⟨ro1, hro1⟩ :
      ∃ ro1, (replace_ref_guard w v (some r)).refs r = some ro1 := by
    rw [replace_ref_guard_refs w v (some r) vo h1 r]
    split
    · rw [h2]; exact ⟨_, rfl⟩
    · rw [h2]; exact ⟨_, rfl⟩
  rw [replace_value_guard_rlink _ r (some v) ro1 hro1 r']
  by_cases h : r' = r
  · rw [if_pos h, if_pos h]
  · rw [if_neg h, if_neg h,
      replace_ref_guard_rlink w v (some r) vo h1 r']

theorem register_vlink (w : GuardWorld T) (r v : Nat)
    (vo : ValueGuardObj T) (ro : RefGuardObj)
    (h1 : w.values v = some vo) (h2 : w.refs r = some ro) (v' : Nat) :
    vlink (register w r v) v' =
      if (if vo.ref_guard = some r then none else rlink w r) = some v'
      then none
      else if v' = v then some r else vlink w v' := by
  rw [register, if_pos (by simp [h1, h2])]
  obtain ⟨ro1, hro1⟩ :
      ∃ ro1, (replace_ref_guard w v (some r)).refs r = some ro1 := by
    rw [replace_ref_guard_refs w v (some r) vo h1 r]
    split
    · rw [h2]; exact ⟨_, rfl⟩
    · rw [h2]; exact ⟨_, rfl⟩
  have hvg : ro1.value_guard =
      (if vo.ref_guard = some r then none else rlink w r) := by
    have ha : rlink (replace_ref_guard w v (some r)) r = ro1.value_guard := by
      simp [rlink, hro1]
    rw [← ha, replace_ref_guard_rlink w v (some r) vo h1 r]
  rw [replace_value_guard_vlink _ r (some v) ro1 hro1 v', hvg,
    replace_ref_guard_vlink w v (some r) vo h1 v']

theorem dropValue_vlink (w : GuardWorld T) (v v' : Nat) :
    vlink (dropValue w v) v' = if v' = v then none else vlink w v' := by
  by_cases h : v' = v
  · subst h
    simp [dropValue, vlink, upd_self]
  · rw [if_neg h]
    cases h1 : w.values v with
    | none =>
        have hre : replace_ref_guard w v none = w := by
          simp [replace_ref_guard, h1]
        simp [dropValue, hre, vlink, upd_ne _ _ _ _ h]
    | some vo =>
        simp only [dropValue, vlink]
        rw [upd_ne _ _ _ _ h, replace_ref_guard_values w v none vo h1,
          upd_ne _ _ _ _ h]

theorem dropValue_rlink (w : GuardWorld T) (v r' : Nat) :
    rlink (dropValue w v) r' =
      if vlink w v = some r' then none else rlink w r' := by
  cases h1 : w.values v with
  | none =>
      have hre : replace_ref_guard w v none = w := by
        simp [replace_ref_guard, h1]
      have hvl : vlink w v = none := by simp [vlink, h1]
      simp [dropValue, hre, rlink, hvl]
  | some vo =>
      have hvl : vlink w v = vo.ref_guard := by simp [vlink, h1]
      have : rlink (dropValue w v) r' =
          rlink (replace_ref_guard w v none) r' := by
        simp [dropValue, rlink]
      rw [this, replace_ref_guard_rlink w v none vo h1 r', hvl]

theorem dropRef_rlink (w : GuardWorld T) (r r' : Nat) :
    rlink (dropRef w r) r' = if r' = r then none else rlink w r' := by
  by_cases h : r' = r
  · subst h
    simp [dropRef, rlink, upd_self]
  · rw [if_neg h]
    cases h2 : w.refs r with
    | none =>
        have hre : replace_value_guard w r none = w := by
          simp [replace_value_guard, h2]
        simp [dropRef, hre, rlink, upd_ne _ _ _ _ h]
    | some ro =>
        simp only [dropRef, rlink]
        rw [upd_ne _ _ _ _ h, replace_value_guard_refs w r none ro h2,
          upd_ne _ _ _ _ h]

theorem dropRef_vlink (w : GuardWorld T) (r v' : Nat) :
    vlink (dropRef w r) v' =
      if rlink w r = some v' then none else vlink w v' := by
  cases h2 : w.refs r with
  | none =>
      have hre : replace_value_guard w r none = w := by
        simp [replace_value_guard, h2]
      have hrl : rlink w r = none := by simp [rlink, h2]
      simp [dropRef, hre, vlink, hrl]
  | some ro =>
      have hrl : rlink w r = ro.value_guard := by simp [rlink, h2]
      have : vlink (dropRef w r) v' =
          vlink (replace_value_guard w r none) v' := by
        simp [dropRef, vlink]
      rw [this, replace_value_guard_vlink w r none ro h2 v', hrl]

theorem setData_vlink (w : GuardWorld T) (v : Nat) (t : T) (v' : Nat) :
    vlink (setData w v t) v' = vlink w v' := by
  by_cases h : v' = v
  · subst h
    simp only [setData, vlink, modifyAt_self]
    cases w.values v' <;> rfl
  · simp only [setData, vlink]
    rw [modifyAt_ne _ _ _ _ h]

theorem setData_rlink (w : GuardWorld T) (v : Nat) (t : T) (r' : Nat) :
    rlink (setData w v t) r' = rlink w r' := rfl

theorem newValue_vlink (w : GuardWorld T) (t : T) (v' : Nat) :
    vlink (newValue w t) v' =
      if v' = w.nv then none else vlink w v' := by
  by_cases h : v' = w.nv
  · subst h
    simp [newValue, vlink, upd_self]
  · simp only [newValue, vlink]
    rw [upd_ne _ _ _ _ h]
    simp [h]

theorem newValue_rlink (w : GuardWorld T) (t : T) (r' : Nat) :
    rlink (newValue w t) r' = rlink w r' := rfl

theorem newRef_rlink (w : GuardWorld T) (r' : Nat) :
    rlink (newRef w) r' = if r' = w.nr then none else rlink w r' := by
  by_cases h : r' = w.nr
  · subst h
    simp [newRef, rlink, upd_self]
  · simp only [newRef, rlink]
    rw [upd_ne _ _ _ _ h]
    simp [h]

theorem newRef_vlink (w : GuardWorld T) (v' : Nat) :
    vlink (newRef w) v' = vlink w v' := rfl

/-!
### Mutual-link preservation
-/

theorem mutual_register (w : GuardWorld T) (r v : Nat) (hm : Mutual w) :
    Mutual (register w r v) := by
  by_cases halive : ((w.values v).isSome && (w.refs r).isSome) = true
  · have halive' := halive
    simp only [Bool.and_eq_true] at halive'
    obtain ⟨hva, hra⟩ := halive'
    obtain ⟨vo, h1⟩ := Option.isSome_iff_exists.mp hva
    obtain ⟨ro, h2⟩ := Option.isSome_iff_exists.mp hra
    intro v' r'
    rw [register_vlink w r v vo ro h1 h2 v',
      register_rlink w r v vo ro h1 h2 r']
    have hvv : vlink w v = vo.ref_guard := by simp [vlink, h1]
    by_cases hv' : v' = v
    · subst hv'
      have hC : ¬((if vo.ref_guard = some r then none else rlink w r)
          = some v') := by
        by_cases hA : vo.ref_guard = some r
        · rw [if_pos hA]; simp
        · rw [if_neg hA]
          intro hcon
          exact hA (hvv ▸ (hm v' r).mpr hcon)
      rw [if_neg hC, if_pos rfl]
      by_cases hr' : r' = r
      · subst hr'
        rw [if_pos rfl]
        simp
      · rw [if_neg hr']
        constructor
        · intro hsr
          exact absurd (Option.some.inj hsr).symm hr'
        · intro hrhs
          by_cases hA4 : vo.ref_guard = some r'
          · rw [if_pos hA4] at hrhs
            cases hrhs
          · rw [if_neg hA4] at hrhs
            exact (hA4 (hvv ▸ (hm v' r').mpr hrhs)).elim
    · by_cases hr' : r' = r
      · subst hr'
        rw [if_pos rfl]
        constructor
        · intro hlhs
          by_cases hC : (if vo.ref_guard = some r' then none
              else rlink w r') = some v'
          · rw [if_pos hC] at hlhs
            cases hlhs
          · rw [if_neg hC, if_neg hv'] at hlhs
            have h3 := (hm v' r').mp hlhs
            by_cases hA : vo.ref_guard = some r'
            · have h4 : vlink w v = some r' := by rw [hvv]; exact hA
              have h5 := (hm v r').mp h4
              rw [h5] at h3
              exact (hv' (Option.some.inj h3).symm).elim
            · rw [if_neg hA] at hC
              exact (hC h3).elim
        · intro hrhs
          exact (hv' (Option.some.inj hrhs).symm).elim
      · rw [if_neg hr']
        by_cases hC : (if vo.ref_guard = some r then none else rlink w r)
            = some v'
        · rw [if_pos hC]
          constructor
          · intro h; cases h
          · intro hrhs
            by_cases hA4 : vo.ref_guard = some r'
            · rw [if_pos hA4] at hrhs
              cases hrhs
            · rw [if_neg hA4] at hrhs
              by_cases hA : vo.ref_guard = some r
              · rw [if_pos hA] at hC
                cases hC
              · rw [if_neg hA] at hC
                have e1 := (hm v' r).mpr hC
                have e2 := (hm v' r').mpr hrhs
                rw [e1] at e2
                exact (hr' (Option.some.inj e2).symm).elim
        · rw [if_neg hC, if_neg hv']
          by_cases hA4 : vo.ref_guard = some r'
          · rw [if_pos hA4]
            constructor
            · intro hlhs
              have e1 := (hm v' r').mp hlhs
              have e2 := (hm v r').mp (by rw [hvv]; exact hA4)
              rw [e2] at e1
              exact (hv' (Option.some.inj e1).symm).elim
            · intro h; cases h
          · rw [if_neg hA4]
            exact hm v' r'
  · have hrw : register w r v = w := by
      unfold register
      rw [if_neg halive]
    rw [hrw]
    exact hm

theorem mutual_dropValue (w : GuardWorld T) (v : Nat) (hm : Mutual w) :
    Mutual (dropValue w v) := by
  intro v' r'
  rw [dropValue_vlink w v v', dropValue_rlink w v r']
  by_cases hv' : v' = v
  · subst hv'
    rw [if_pos rfl]
    constructor
    · intro h; cases h
    · intro hrhs
      by_cases hA : vlink w v' = some r'
      · rw [if_pos hA] at hrhs
        cases hrhs
      · rw [if_neg hA] at hrhs
        exact (hA ((hm v' r').mpr hrhs)).elim
  · rw [if_neg hv']
    by_cases hA : vlink w v = some r'
    · rw [if_pos hA]
      constructor
      · intro hlhs
        have e1 := (hm v' r').mp hlhs
        have e2 := (hm v r').mp hA
        rw [e2] at e1
        exact (hv' (Option.some.inj e1).symm).elim
      · intro h; cases h
    · rw [if_neg hA]
      exact hm v' r'

theorem mutual_dropRef (w : GuardWorld T) (r : Nat) (hm : Mutual w) :
    Mutual (dropRef w r) := by
  intro v' r'
  rw [dropRef_vlink w r v', dropRef_rlink w r r']
  by_cases hr' : r' = r
  · subst hr'
    rw [if_pos rfl]
    constructor
    · intro hlhs
      by_cases hA : rlink w r' = some v'
      · rw [if_pos hA] at hlhs
        cases hlhs
      · rw [if_neg hA] at hlhs
        exact (hA ((hm v' r').mp hlhs)).elim
    · intro h; cases h
  · rw [if_neg hr']
    by_cases hA : rlink w r = some v'
    · rw [if_pos hA]
      constructor
      · intro h; cases h
      · intro hrhs
        have e1 := (hm v' r').mpr hrhs
        have e2 := (hm v' r).mpr hA
        rw [e2] at e1
        exact (hr' (Option.some.inj e1).symm).elim
    · rw [if_neg hA]
      exact hm v' r'

theorem mutual_setData (w : GuardWorld T) (v : Nat) (t : T)
    (hm : Mutual w) : Mutual (setData w v t) := by
  intro v' r'
  rw [setData_vlink w v t v', setData_rlink w v t r']
  exact hm v' r'

theorem mutual_newValue (w : GuardWorld T) (t : T) (hm : Mutual w)
    (hf : Fresh w) : Mutual (newValue w t) := by
  intro v' r'
  rw [newValue_vlink w t v', newValue_rlink w t r']
  by_cases hv' : v' = w.nv
  · rw [if_pos hv']
    constructor
    · intro h; cases h
    · intro hrhs
      have e1 := (hm v' r').mpr hrhs
      rw [hv'] at e1
      have e2 : vlink w w.nv = none := by
        simp [vlink, hf.1 w.nv (le_refl _)]
      rw [e2] at e1
      cases e1
  · rw [if_neg hv']
    exact hm v' r'

theorem mutual_newRef (w : GuardWorld T) (hm : Mutual w) (hf : Fresh w) :
    Mutual (newRef w) := by
  intro v' r'
  rw [newRef_vlink w v', newRef_rlink w r']
  by_cases hr' : r' = w.nr
  · rw [if_pos hr']
    constructor
    · intro hlhs
      have e1 := (hm v' r').mp hlhs
      rw [hr'] at e1
      have e2 : rlink w w.nr = none := by
        simp [rlink, hf.2 w.nr (le_refl _)]
      rw [e2] at e1
      cases e1
    · intro h; cases h
  · rw [if_neg hr']
    exact hm v' r'

/-!
### Freshness preservation
-/

theorem replace_ref_guard_nv (w : GuardWorld T) (v : Nat)
    (new : Option Nat) : (replace_ref_guard w v new).nv = w.nv := by
  cases h1 : w.values v with
  | none => simp [replace_ref_guard, h1]
  | some vo =>
      cases hro : vo.ref_guard <;>
        simp [replace_ref_guard, h1, hro, invalidate_value_guard]

theorem replace_ref_guard_nr (w : GuardWorld T) (v : Nat)
    (new : Option Nat) : (replace_ref_guard w v new).nr = w.nr := by
  cases h1 : w.values v with
  | none => simp [replace_ref_guard, h1]
  | some vo =>
      cases hro : vo.ref_guard <;>
        simp [replace_ref_guard, h1, hro, invalidate_value_guard]

theorem replace_value_guard_nv (w : GuardWorld T) (r : Nat)
    (new : Option Nat) : (replace_value_guard w r new).nv = w.nv := by
  cases h2 : w.refs r with
  | none => simp [replace_value_guard, h2]
  | some ro =>
      cases hvo : ro.value_guard <;>
        simp [replace_value_guard, h2, hvo, invalidate_ref_guard]

theorem replace_value_guard_nr (w : GuardWorld T) (r : Nat)
    (new : Option Nat) : (replace_value_guard w r new).nr = w.nr := by
  cases h2 : w.refs r with
  | none => simp [replace_value_guard, h2]
  | some ro =>
      cases hvo : ro.value_guard <;>
        simp [replace_value_guard, h2, hvo, invalidate_ref_guard]

theorem replace_ref_guard_values_isSome (w : GuardWorld T) (v : Nat)
    (new : Option Nat) (i : Nat) :
    ((replace_ref_guard w v new).values i).isSome = (w.values i).isSome := by
  cases h1 : w.values v with
  | none => simp [replace_ref_guard, h1]
  | some vo =>
      rw [replace_ref_guard_values w v new vo h1]
      by_cases h : i = v
      · subst h
        rw [upd_self, h1]
        rfl
      · rw [upd_ne _ _ _ _ h]

theorem replace_ref_guard_refs_isSome (w : GuardWorld T) (v : Nat)
    (new : Option Nat) (i : Nat) :
    ((replace_ref_guard w v new).refs i).isSome = (w.refs i).isSome := by
  cases h1 : w.values v with
  | none => simp [replace_ref_guard, h1]
  | some vo =>
      rw [replace_ref_guard_refs w v new vo h1 i]
      split
      · cases h : w.refs i <;> simp [h]
      · rfl

theorem replace_value_guard_refs_isSome (w : GuardWorld T) (r : Nat)
    (new : Option Nat) (i : Nat) :
    ((replace_value_guard w r new).refs i).isSome = (w.refs i).isSome := by
  cases h2 : w.refs r with
  | none => simp [replace_value_guard, h2]
  | some ro =>
      rw [replace_value_guard_refs w r new ro h2]
      by_cases h : i = r
      · subst h
        rw [upd_self, h2]
        rfl
      · rw [upd_ne _ _ _ _ h]

theorem replace_value_guard_values_isSome (w : GuardWorld T) (r : Nat)
    (new : Option Nat) (i : Nat) :
    ((replace_value_guard w r new).values i).isSome = (w.values i).isSome := by
  cases h2 : w.refs r with
  | none => simp [replace_value_guard, h2]
  | some ro =>
      rw [replace_value_guard_values w r new ro h2 i]
      split
      · cases h : w.values i <;> simp [h]
      · rfl

theorem fresh_register (w : GuardWorld T) (r v : Nat) (hf : Fresh w) :
    Fresh (register w r v) := by
  by_cases halive : ((w.values v).isSome && (w.refs r).isSome) = true
  · have hrw : register w r v =
        replace_value_guard (replace_ref_guard w v (some r)) r (some v) := by
      unfold register
      rw [if_pos halive]
    rw [hrw]
    constructor
    · intro i hi
      rw [replace_value_guard_nv, replace_ref_guard_nv] at hi
      apply opt_eq_none_of_isSome_false
      rw [replace_value_guard_values_isSome, replace_ref_guard_values_isSome,
        hf.1 i hi]
      rfl
    · intro i hi
      rw [replace_value_guard_nr, replace_ref_guard_nr] at hi
      apply opt_eq_none_of_isSome_false
      rw [replace_value_guard_refs_isSome, replace_ref_guard_refs_isSome,
        hf.2 i hi]
      rfl
  · have hrw : register w r v = w := by
      unfold register
      rw [if_neg halive]
    rw [hrw]
    exact hf

theorem fresh_dropValue (w : GuardWorld T) (v : Nat) (hf : Fresh w) :
    Fresh (dropValue w v) := by
  constructor
  · intro i hi
    show upd (replace_ref_guard w v none).values v none i = none
    by_cases h : i = v
    · subst h
      rw [upd_self]
    · rw [upd_ne _ _ _ _ h]
      apply opt_eq_none_of_isSome_false
      rw [replace_ref_guard_values_isSome]
      have hnv : (dropValue w v).nv = w.nv := by
        show (replace_ref_guard w v none).nv = w.nv
        exact replace_ref_guard_nv w v none
      rw [hnv] at hi
      rw [hf.1 i hi]
      rfl
  · intro i hi
    show (replace_ref_guard w v none).refs i = none
    apply opt_eq_none_of_isSome_false
    rw [replace_ref_guard_refs_isSome]
    have hnr : (dropValue w v).nr = w.nr := by
      show (replace_ref_guard w v none).nr = w.nr
      exact replace_ref_guard_nr w v none
    rw [hnr] at hi
    rw [hf.2 i hi]
    rfl

theorem fresh_dropRef (w : GuardWorld T) (r : Nat) (hf : Fresh w) :
    Fresh (dropRef w r) := by
  constructor
  · intro i hi
    show (replace_value_guard w r none).values i = none
    apply opt_eq_none_of_isSome_false
    rw [replace_value_guard_values_isSome]
    have hnv : (dropRef w r).nv = w.nv := by
      show (replace_value_guard w r none).nv = w.nv
      exact replace_value_guard_nv w r none
    rw [hnv] at hi
    rw [hf.1 i hi]
    rfl
  · intro i hi
    show upd (replace_value_guard w r none).refs r none i = none
    by_cases h : i = r
    · subst h
      rw [upd_self]
    · rw [upd_ne _ _ _ _ h]
      apply opt_eq_none_of_isSome_false
      rw [replace_value_guard_refs_isSome]
      have hnr : (dropRef w r).nr = w.nr := by
        show (replace_value_guard w r none).nr = w.nr
        exact replace_value_guard_nr w r none
      rw [hnr] at hi
      rw [hf.2 i hi]
      rfl

theorem fresh_setData (w : GuardWorld T) (v : Nat) (t : T) (hf : Fresh w) :
    Fresh (setData w v t) := by
  constructor
  · intro i hi
    exact modifyAt_none _ _ _ _ (hf.1 i hi)
  · intro i hi
    exact hf.2 i hi

theorem fresh_newValue (w : GuardWorld T) (t : T) (hf : Fresh w) :
    Fresh (newValue w t) := by
  constructor
  · intro i hi
    have h1 : i ≠ w.nv := by
      show i ≠ w.nv
      have : w.nv + 1 ≤ i := hi
      omega
    show upd w.values w.nv (some ⟨t, none⟩) i = none
    rw [upd_ne _ _ _ _ h1]
    exact hf.1 i (by have : w.nv + 1 ≤ i := hi; omega)
  · intro i hi
    exact hf.2 i hi

theorem fresh_newRef (w : GuardWorld T) (hf : Fresh w) :
    Fresh (newRef w) := by
  constructor
  · intro i hi
    exact hf.1 i hi
  · intro i hi
    have h1 : i ≠ w.nr := by
      have : w.nr + 1 ≤ i := hi
      omega
    show upd w.refs w.nr (some ⟨none⟩) i = none
    rw [upd_ne _ _ _ _ h1]
    exact hf.2 i (by have : w.nr + 1 ≤ i := hi; omega)

theorem mutual_empty : Mutual (empty : GuardWorld T) := by
  intro v r
  simp [vlink, rlink, empty]

theorem fresh_empty : Fresh (empty : GuardWorld T) :=
  ⟨fun _ _ => rfl, fun _ _ => rfl⟩

/-- Every single operation preserves the mutual-link invariant and
freshness. -/
theorem applyOp_preserves (w : GuardWorld T) (op : Op T)
    (hm : Mutual w) (hf : Fresh w) :
    Mutual (applyOp w op) ∧ Fresh (applyOp w op) := by
  cases op with
  | newValue t => exact ⟨mutual_newValue w t hm hf, fresh_newValue w t hf⟩
  | newRef => exact ⟨mutual_newRef w hm hf, fresh_newRef w hf⟩
  | setData v t => exact ⟨mutual_setData w v t hm, fresh_setData w v t hf⟩
  | register r v => exact ⟨mutual_register w r v hm, fresh_register w r v hf⟩
  | dropValue v => exact ⟨mutual_dropValue w v hm, fresh_dropValue w v hf⟩
  | dropRef r => exact ⟨mutual_dropRef w r hm, fresh_dropRef w r hf⟩

/-- C10: in every state reachable from the empty world by any sequence
of `new`, `register`, `set` and `drop` operations on `ValueGuard`s and
`RefGuard`s, links are mutual — a `RefGuard`'s stored pointer names a
`ValueGuard` exactly when that `ValueGuard`'s stored pointer names
that same `RefGuard` back; no one-sided link exists after any
operation completes.  (`get` reads the world without modifying it —
`getRef` is a pure function — so read operations cannot leave the
reachable set.) -/
theorem guard_links_always_mutual {T : Type} (ops : List (Op T)) :
    Mutual (runOps (empty : GuardWorld T) ops) := by
  suffices h : ∀ w : GuardWorld T, Mutual w → Fresh w →
      Mutual (runOps w ops) ∧ Fresh (runOps w ops) by
    exact (h empty mutual_empty fresh_empty).1
  induction ops with
  | nil =>
      intro w hm hf
      exact ⟨hm, hf⟩
  | cons op rest ih =>
      intro w hm hf
      obtain ⟨hm', hf'⟩ := applyOp_preserves w op hm hf
      exact ih (applyOp w op) hm' hf'

end GuardWorld

end Sasc
